import Mathlib

/-!
Verification of the hypermatcher worker-pool matching engine.

The Go sources are shallowly embedded here:

* pattern aggregation (hypermatcher.go matchedIdxToStrings, the older
  matchedIdxToPatterns, and the inline aggregation of ConsecutiveEngine.Match);
* pattern compilation over index partitions (hypermatcher.go compilePatterns
  and subSlices);
* the PooledEngine lifecycle and its Update and Match entry points
  (pooledengine.go), with the external hyperscan calls (compile, build, scan)
  passed in as explicit outcome parameters;
* the per-worker scan loop state (poolworker.go), with scratch allocation
  outcomes passed in explicitly;
* the database hot-swap broadcast protocol, as a small-step transition system
  over pool plus worker states mirroring the rendezvous channel semantics
  (an unbuffered send completes exactly when the receiver is at its select).

Go slices that may be nil are embedded as Option (List _) with none standing
for nil; array indexing that would panic out of range is embedded as Option
with none standing for the panic.
-/

namespace Hypermatcher

/-- Errors of the package (the Err… variables of hyperscanner.go /
hypermatcher.go), plus opaque stand-ins for errors produced by the external
hyperscan library (parse, build, scratch allocation, scan). -/
inductive HsError where
  | started
  | notStarted
  | dbNotLoaded
  | busy
  | noPatterns
  | workerUninitialized
  | notLoaded
  | parseFailure (pattern : String)
  | buildFailure
  | scratchFailure
  | scanFailure
deriving DecidableEq, Repr

/-- A compiled pattern (hyperscan.Pattern as used by this package): the dense
id assigned by compilePatterns and the original source expression body
returned by Expression.String(). -/
structure HsPattern where
  id : Nat
  expression : String
deriving DecidableEq, Repr

/-! ## Result aggregation (hypermatcher.go lines 83-97, part_000 lines 201-208,
consecutiveengine.go lines 87-96) -/

/-- The deduplication sieve: hypermatcher.go lines 84-87 insert every matched
id into a map, leaving one entry per distinct id.  Go map iteration order is
unspecified; we fix one concrete enumeration of the distinct ids
(List.dedup).  All aggregation properties proved below are insensitive to
that order (they are stated via length, membership and permutation). -/
def matchedSieve (matched : List Nat) : List Nat :=
  matched.dedup

/-- One step per sieve entry of the loop at hypermatcher.go lines 91-94:
look the id up in the pattern list (patterns[patternsIdx], a panic when out
of range, embedded as none) and append its expression at the running write
counter matchPatternsIdx.  Writing at the counter into the preallocated
slice of length len(sieve) is exactly list construction in order. -/
def sieveToStrings (patterns : List HsPattern) : List Nat → Option (List String)
  | [] => some []
  | i :: is =>
    match patterns.get? i with
    | none => none
    | some p =>
      match sieveToStrings patterns is with
      | none => none
      | some rest => some (p.expression :: rest)

/-- hypermatcher.go lines 83-97: deduplicate the matched ids, then map each
distinct id to its pattern's source expression, writing at a separate
counter. -/
def matchedIdxToStrings (matched : List Nat) (patterns : List HsPattern) :
    Option (List String) :=
  sieveToStrings patterns (matchedSieve matched)

/-- Go slice element assignment acc[i] = v: the write lands when i is in
range and panics (none) otherwise. -/
def setChecked (l : List String) (i : Nat) (v : String) : Option (List String) :=
  if i < l.length then some (l.set i v) else none

/-- The loop of part_000 lines 203-205 (and consecutiveengine.go lines
93-95): for each distinct matched id, write the pattern's expression into the
output slice AT INDEX patternsIdx, i.e. at the raw id value, not at a write
counter.  Both the pattern lookup and the output write can be out of range. -/
def writeAtIds (patterns : List HsPattern) : List Nat → List String → Option (List String)
  | [], acc => some acc
  | i :: is, acc =>
    match patterns.get? i with
    | none => none
    | some p =>
      match setChecked acc i p.expression with
      | none => none
      | some acc2 => writeAtIds patterns is acc2

/-- part_000 lines 201-208 (Simple.Match aggregation): matched arrives as a
set (the match handler there inserts into a map); the output slice is
preallocated with length len(matched) and written at raw id indices.  The
argument list enumerates the distinct matched ids. -/
def matchedIdxToPatterns (matched : List Nat) (patterns : List HsPattern) :
    Option (List String) :=
  writeAtIds patterns matched (List.replicate matched.length "")

/-- consecutiveengine.go lines 87-96 (ConsecutiveEngine.Match aggregation):
build the sieve from the matched-id list, then run the same write-at-raw-id
loop over a slice of length len(sieve). -/
def consecutiveAggregate (matched : List Nat) (patterns : List HsPattern) :
    Option (List String) :=
  matchedIdxToPatterns (matchedSieve matched) patterns

/-! ## Parallel pattern compilation (hypermatcher.go lines 21-59 and 120-133) -/

/-- subSlices (hypermatcher.go lines 120-133): split the index range of a
slice of the given length into numSlices contiguous ranges of
len/numSlices elements each, plus one tail range when the division left a
remainder.  Each range is the pair (lower bound inclusive, upper bound
exclusive). -/
def subSlices (sliceLen numSlices : Nat) : List (Nat × Nat) :=
  let numPerSlice := sliceLen / numSlices
  let base := (List.range numSlices).map (fun i => (i * numPerSlice, (i + 1) * numPerSlice))
  if numSlices * numPerSlice < sliceLen then
    base ++ [(numSlices * numPerSlice, sliceLen)]
  else base

/-- The list of indices a range covers, in order. -/
def rangeIdxs (r : Nat × Nat) : List Nat :=
  List.range' r.1 (r.2 - r.1)

/-- The two result arrays of compilePatterns: compiledPatterns and
compileErrors, both preallocated with one slot per input pattern (nil
entries embedded as none). -/
structure CompileState where
  compiled : List (Option HsPattern)
  compileErrors : List (Option HsError)
deriving DecidableEq, Repr

/-- The per-partition goroutine body (hypermatcher.go lines 33-46): walk the
range left to right; on a successful parse store the compiled pattern with
its id set to the input index; on the first parse failure record the error
for that index and break out of the loop.  The external
hyperscan.ParsePattern call is the parse parameter, returning the pattern's
expression body on success.  The partitions write to disjoint index ranges,
so running them sequentially is an exact embedding of the concurrent run. -/
def processRange (parse : String → Except HsError String) (patterns : List String)
    (st : CompileState) (lo : Nat) : Nat → CompileState
  | 0 => st
  | fuel + 1 =>
    match parse (patterns.getD lo "") with
    | Except.ok body =>
        processRange parse patterns
          { st with compiled := st.compiled.set lo (some ⟨lo, body⟩) } (lo + 1) fuel
    | Except.error e =>
        { st with compileErrors := st.compileErrors.set lo (some e) }

/-- The partition step shared by every compile range: process one range of
the input against the shared state. -/
def compileFoldStep (parse : String → Except HsError String) (patterns : List String)
    (st : CompileState) (r : Nat × Nat) : CompileState :=
  processRange parse patterns st r.1 (r.2 - r.1)

/-- The state after every partition of compilePatterns has run: both arrays
are preallocated with one empty slot per input pattern (lines 28-29), then
each subSlices range is processed over them. -/
def compileFold (parse : String → Except HsError String) (patterns : List String)
    (numSlices : Nat) : CompileState :=
  (subSlices patterns.length numSlices).foldl (compileFoldStep parse patterns)
    ⟨List.replicate patterns.length none, List.replicate patterns.length none⟩

/-- compilePatterns (hypermatcher.go lines 21-59): allocate both arrays,
process every subSlices range, then scan compileErrors in index order and
fail with the first recorded error; otherwise return the compiled array. -/
def compilePatterns (parse : String → Except HsError String) (patterns : List String)
    (numSlices : Nat) : Except HsError (List (Option HsPattern)) :=
  match (compileFold parse patterns numSlices).compileErrors.findSome? id with
  | some e => Except.error e
  | none => Except.ok (compileFold parse patterns numSlices).compiled

/-- Concrete compile output used to instantiate the compilation theorem. -/
def compileDemo : List (Option HsPattern) :=
  [some ⟨0, "a"⟩, some ⟨1, "b"⟩, some ⟨2, "c"⟩]

/-- The expression body the parse outcome carries at input position j (the
error case is arbitrary; it is only read where parsing succeeded). -/
def bodyOf (parse : String → Except HsError String) (patterns : List String)
    (j : Nat) : String :=
  match parse (patterns.getD j "") with
  | Except.ok b => b
  | Except.error _ => ""

/-- All indices covered by a list of ranges, concatenated in range order. -/
def coveredIdxs (rs : List (Nat × Nat)) : List Nat :=
  (rs.map rangeIdxs).flatten

/-! ## PooledEngine lifecycle, Update and Match (pooledengine.go) -/

/-- The PooledEngine struct (pooledengine.go lines 12-22) restricted to the
fields the verified properties depend on.  stopClosed records whether the
stop channel (created once by NewPooledEngine) has been closed; workersAlive
records whether the currently spawned workers are still serving their select
loops.  A worker spawned while the stop channel is already closed observes
the always-ready closed-channel receive at its first select, with no request
or refresh sender yet pending, and exits immediately; hence workersAlive is
the negation of stopClosed at spawn time.  The compiled database and the
pattern list are installed together from the same compilePatterns result, so
the database is represented by its pattern list. -/
structure PooledEngine where
  started : Bool
  loaded : Bool
  stopClosed : Bool
  workersAlive : Bool
  numWorkers : Nat
  patterns : List HsPattern
  db : List HsPattern
deriving DecidableEq, Repr

/-- NewPooledEngine (pooledengine.go lines 34-45): fresh open stop channel,
no workers spawned, empty pattern list, nothing loaded or started. -/
def NewPooledEngine (numWorkers : Nat) : PooledEngine :=
  { started := false
    loaded := false
    stopClosed := false
    workersAlive := false
    numWorkers := numWorkers
    patterns := []
    db := [] }

/-- Start (pooledengine.go lines 133-149): under the lock, fail with
ErrStarted when already started; otherwise spawn the workers over the shared
request channel and the pool's (possibly already closed) stop channel and
mark started. -/
def PooledEngine.Start (pe : PooledEngine) : PooledEngine × Option HsError :=
  if pe.started then (pe, some HsError.started)
  else ({ pe with started := true, workersAlive := !pe.stopClosed }, none)

/-- Stop (pooledengine.go lines 152-172): under the lock, fail with
ErrNotStarted when not started; otherwise close the stop channel (the
workers terminate), close the database when loaded, and clear both flags. -/
def PooledEngine.Stop (pe : PooledEngine) : PooledEngine × Option HsError :=
  if !pe.started then (pe, some HsError.notStarted)
  else ({ pe with stopClosed := true, workersAlive := false,
                  loaded := false, started := false }, none)

/-- Outcome of an Update call.  blocked is the embedding of the broadcast
loop (pooledengine.go lines 79-81) never completing: an unbuffered send to a
refresh channel whose worker goroutine has exited can never rendezvous, so
Update never returns. -/
inductive UpdateResult where
  | ok
  | failed (e : HsError)
  | blocked
deriving DecidableEq, Repr

/-- Update (pooledengine.go lines 48-84).  The external compilePatterns call
(parse plus database build, hyperscanner.go lines 21-42) is passed in as its
outcome.  Returns the state after the call, the outcome, and how many
workers received a refresh.  Checks in source order: empty input, started
flag, compile outcome; then installs db, patterns and loaded under the write
lock and broadcasts to every worker's refresh channel sequentially. -/
def PooledEngine.Update (pe : PooledEngine) (patterns : List String)
    (compileResult : Except HsError (List HsPattern)) :
    PooledEngine × UpdateResult × Nat :=
  if patterns.length = 0 then (pe, UpdateResult.failed HsError.noPatterns, 0)
  else if !pe.started then (pe, UpdateResult.failed HsError.notStarted, 0)
  else
    match compileResult with
    | Except.error e => (pe, UpdateResult.failed e, 0)
    | Except.ok compiled =>
      let pe2 := { pe with db := compiled, patterns := compiled, loaded := true }
      if pe2.numWorkers = 0 then (pe2, UpdateResult.ok, 0)
      else if pe2.workersAlive then (pe2, UpdateResult.ok, pe2.numWorkers)
      else (pe2, UpdateResult.blocked, 0)

/-- A concrete running, loaded pool used to instantiate theorems with
hypotheses. -/
def pooledDemo : PooledEngine :=
  { started := true
    loaded := true
    stopClosed := false
    workersAlive := true
    numWorkers := 1
    patterns := [⟨0, "a"⟩]
    db := [⟨0, "a"⟩] }

/-- A worker's scan response (pooledengine.go lines 28-31): matched ids or an
error. -/
structure ScanResponse where
  matched : List Nat
  err : Option HsError
deriving DecidableEq, Repr

/-- What a Match call produces: the returned string slice (none embeds a nil
slice), the returned error, and whether a request was handed to a worker.
Match assigns no engine field, so no state is returned. -/
structure MatchOutcome where
  result : Option (List String)
  err : Option HsError
  dispatched : Bool
deriving DecidableEq, Repr

/-- Match (pooledengine.go lines 88-130).  workerReady tells whether some
worker is blocked receiving on the shared request channel at the instant of
the non-blocking select (its default branch fires otherwise); response is
the reply the accepting worker sends back.  The outer Option embeds the
panic of an out-of-range pattern lookup during aggregation.  Checks in
source order: loaded flag, started flag, non-blocking dispatch, response
error, aggregation. -/
def PooledEngine.Match (pe : PooledEngine) (workerReady : Bool)
    (response : ScanResponse) : Option MatchOutcome :=
  if !pe.loaded then some ⟨none, some HsError.dbNotLoaded, false⟩
  else if !pe.started then some ⟨none, some HsError.notStarted, false⟩
  else if !workerReady then some ⟨none, some HsError.busy, false⟩
  else
    match response.err with
    | some e => some ⟨none, some e, true⟩
    | none =>
      match matchedIdxToStrings response.matched pe.patterns with
      | none => none
      | some out => some ⟨some out, none, true⟩

/-- One public API call on the pool.  Match mutates no field and needs no
constructor.  The Update constructor quantifies over the external compile
outcome. -/
inductive PoolStep : PooledEngine → PooledEngine → Prop
  | start (pe : PooledEngine) : PoolStep pe pe.Start.1
  | stop (pe : PooledEngine) : PoolStep pe pe.Stop.1
  | update (pe : PooledEngine) (patterns : List String)
      (compileResult : Except HsError (List HsPattern)) :
      PoolStep pe (pe.Update patterns compileResult).1

/-- States a pool constructed by NewPooledEngine can reach through its public
API. -/
def PoolReachable (numWorkers : Nat) (pe : PooledEngine) : Prop :=
  Relation.ReflTransGen PoolStep (NewPooledEngine numWorkers) pe

/-! ## PoolWorker sticky error state (poolworker.go) -/

/-- The PoolWorker fields the scan loop reads and writes (poolworker.go lines
6-13): the bound database, the scratch space (none while never allocated or
after a failed first allocation) and the sticky error.  Databases and
scratch spaces are opaque; they are represented by numeric handles. -/
structure PoolWorker where
  db : Option Nat
  scratch : Option Nat
  err : Option HsError
deriving DecidableEq, Repr

/-- NewPoolWorker (poolworker.go lines 16-24): nil scratch and the sticky
error preset to ErrWorkerUninitialized. -/
def NewPoolWorker : PoolWorker :=
  { db := none, scratch := none, err := some HsError.workerUninitialized }

/-- onUpdateDB (poolworker.go lines 40-48): rebind the database, then either
allocate a fresh scratch (when none exists: hyperscan.NewScratch, returning
a handle or an error) or reallocate the existing one in place
(Scratch.Realloc, keeping the handle).  Either way the sticky error becomes
the allocation outcome.  The external allocation outcome is the alloc
parameter. -/
def PoolWorker.onUpdateDB (pw : PoolWorker) (newDB : Nat)
    (alloc : Except HsError Nat) : PoolWorker :=
  match pw.scratch with
  | none =>
    match alloc with
    | Except.ok sc => { db := some newDB, scratch := some sc, err := none }
    | Except.error e => { db := some newDB, scratch := none, err := some e }
  | some old =>
    match alloc with
    | Except.ok _ => { db := some newDB, scratch := some old, err := none }
    | Except.error e => { db := some newDB, scratch := some old, err := some e }

/-- onScan (poolworker.go lines 50-67): with the sticky error set, reply with
it at once, leaving every field (in particular the scratch space) untouched;
otherwise run the external scan (its outcome is the scanOutcome parameter)
and reply with the collected ids or the scan error.  A scan failure is
replied but never stored: the sticky error is only written by onUpdateDB. -/
def PoolWorker.onScan (pw : PoolWorker) (scanOutcome : Except HsError (List Nat)) :
    PoolWorker × ScanResponse :=
  match pw.err with
  | some e => (pw, ⟨[], some e⟩)
  | none =>
    match scanOutcome with
    | Except.ok m => (pw, ⟨m, none⟩)
    | Except.error e => (pw, ⟨[], some e⟩)

/-- One inbound signal of the worker loop (poolworker.go lines 26-38),
carrying the outcome of the external call it triggers. -/
inductive WorkerEvent where
  | scan (scanOutcome : Except HsError (List Nat))
  | refresh (newDB : Nat) (alloc : Except HsError Nat)
deriving Repr

/-- The state transition of one loop iteration. -/
def PoolWorker.step (pw : PoolWorker) : WorkerEvent → PoolWorker
  | WorkerEvent.scan o => (pw.onScan o).1
  | WorkerEvent.refresh d a => pw.onUpdateDB d a

/-- The worker state after serving a sequence of signals. -/
def PoolWorker.run (pw : PoolWorker) (events : List WorkerEvent) : PoolWorker :=
  events.foldl PoolWorker.step pw

/-- Whether an event is a scan request. -/
def WorkerEvent.isScan : WorkerEvent → Bool
  | WorkerEvent.scan _ => true
  | WorkerEvent.refresh _ _ => false

/-! ## The hot-swap broadcast protocol (pooledengine.go lines 70-84 with
poolworker.go lines 26-48) as a transition system -/

namespace Broadcast

/-- One worker as seen by the protocol: the database version it is bound to
and the version its scan in progress uses, if one is running.  Versions are
abstract numbers identifying successive compiled databases. -/
structure WorkerView where
  dbv : Option Nat
  scanning : Option Nat
deriving DecidableEq, Repr

/-- Protocol state: the installed database version (pe.db after Update's
write-lock section), the broadcast in progress as (version, number of
workers already refreshed), and the workers.  Update calls are serialized
(pending must be cleared before the next broadcast starts), matching the
specification's mutual exclusion of concurrent Updates. -/
structure PoolView where
  current : Option Nat
  pending : Option (Nat × Nat)
  workers : List WorkerView
deriving DecidableEq, Repr

/-- A freshly started pool: nothing installed, no broadcast, every worker
unbound and idle. -/
def init (n : Nat) : PoolView :=
  { current := none, pending := none, workers := List.replicate n ⟨none, none⟩ }

/-- The interleaved small steps of Update's broadcast and the worker loops.

* updateStart: Update installs version v under the write lock and begins the
  sequential broadcast.
* handoff: the rendezvous send to worker i completes; it requires worker i to
  be at its select (not scanning), and atomically rebinds it.
* updateReturn: the broadcast loop has reached every worker; Update returns.
* accept: an idle worker at its select takes a scan request from the shared
  request channel and starts scanning with the database it is bound to.
* finish: a worker completes its scan and returns to its select loop. -/
inductive Step : PoolView → PoolView → Prop
  | updateStart (s : PoolView) (v : Nat) :
      s.pending = none →
      Step s { current := some v, pending := some (v, 0), workers := s.workers }
  | handoff (s : PoolView) (v i : Nat) (h : i < s.workers.length) :
      s.pending = some (v, i) →
      (s.workers.get ⟨i, h⟩).scanning = none →
      Step s { current := s.current, pending := some (v, i + 1),
               workers := s.workers.set i ⟨some v, none⟩ }
  | updateReturn (s : PoolView) (v : Nat) :
      s.pending = some (v, s.workers.length) →
      Step s { current := s.current, pending := none, workers := s.workers }
  | accept (s : PoolView) (i u : Nat) (h : i < s.workers.length) :
      (s.workers.get ⟨i, h⟩).scanning = none →
      (s.workers.get ⟨i, h⟩).dbv = some u →
      Step s { current := s.current, pending := s.pending,
               workers := s.workers.set i ⟨some u, some u⟩ }
  | finish (s : PoolView) (i : Nat) (h : i < s.workers.length) :
      Step s { current := s.current, pending := s.pending,
               workers := s.workers.set i ⟨(s.workers.get ⟨i, h⟩).dbv, none⟩ }

/-- Protocol states reachable from a freshly started pool of n workers. -/
def Reachable (n : Nat) (s : PoolView) : Prop :=
  Relation.ReflTransGen Step (init n) s

/-- The broadcast invariant: while a broadcast of v is pending, the already
refreshed workers are bound to v and scan nothing older; once no broadcast
is pending, every worker is bound to the installed version and scans nothing
else. -/
def Inv (s : PoolView) : Prop :=
  (∀ v i, s.pending = some (v, i) →
    s.current = some v ∧ i ≤ s.workers.length ∧
    ∀ j (hj : j < s.workers.length), j < i →
      (s.workers.get ⟨j, hj⟩).dbv = some v ∧
      ((s.workers.get ⟨j, hj⟩).scanning = none ∨
        (s.workers.get ⟨j, hj⟩).scanning = some v)) ∧
  (s.pending = none → ∀ v, s.current = some v →
    ∀ j (hj : j < s.workers.length),
      (s.workers.get ⟨j, hj⟩).dbv = some v ∧
      ((s.workers.get ⟨j, hj⟩).scanning = none ∨
        (s.workers.get ⟨j, hj⟩).scanning = some v))

end Broadcast

end Hypermatcher

namespace Hypermatcher

/-! ## Helper lemmas -/

/-- When every id in the list is a valid pattern index, the aggregation loop
of matchedIdxToStrings produces exactly the expression of each listed id, in
list order. -/
theorem sieveToStrings_eq_map (patterns : List HsPattern) (l : List Nat)
    (h : ∀ i ∈ l, i < patterns.length) :
    sieveToStrings patterns l
      = some (l.map (fun i => (patterns.getD i ⟨0, ""⟩).expression)) := by
  induction l with
  | nil => rfl
  | cons a as ih =>
    have ha : a < patterns.length := h a (List.mem_cons_self a as)
    have h2 : ∀ i ∈ as, i < patterns.length := fun i hi => h i (List.mem_cons_of_mem a hi)
    have hget : patterns.get? a = some (patterns.getD a ⟨0, ""⟩) := by
      rw [List.get?_eq_getElem?, List.getElem?_eq_getElem ha, List.getD_eq_getElem _ _ ha]
    simp only [sieveToStrings, hget, ih h2, List.map_cons]

/-- A scan signal never changes the worker state: with the sticky error set
the request is answered from it, and otherwise the reply is built from the
external scan outcome; neither branch writes a field. -/
theorem poolWorker_step_scan (pw : PoolWorker) (o : Except HsError (List Nat)) :
    pw.step (WorkerEvent.scan o) = pw := by
  unfold PoolWorker.step PoolWorker.onScan
  cases pw.err with
  | some e => rfl
  | none => cases o <;> rfl

/-- Update preserves the implication from loaded to started: the branch that
sets the loaded flag is only reached when the started check passed, and the
started flag is never written by Update. -/
theorem update_loaded_imp_started (pe : PooledEngine) (patterns : List String)
    (cr : Except HsError (List HsPattern))
    (ih : pe.loaded = true → pe.started = true) :
    (pe.Update patterns cr).1.loaded = true → (pe.Update patterns cr).1.started = true := by
  unfold PooledEngine.Update
  split
  · exact ih
  split
  · exact ih
  · next hs =>
    have hst : pe.started = true := by simpa using hs
    split
    · exact ih
    · intro _
      dsimp only
      split
      · exact hst
      · split
        · exact hst
        · exact hst

/-- Along the public API, the loaded flag can only be set while the pool is
started: Update requires the started flag, Stop clears both. -/
theorem poolReachable_loaded_imp_started (n : Nat) (pe : PooledEngine)
    (h : PoolReachable n pe) : pe.loaded = true → pe.started = true := by
  induction h with
  | refl => intro hl; simp [NewPooledEngine] at hl
  | tail _ hstep ih =>
    cases hstep with
    | start =>
      unfold PooledEngine.Start
      split
      · exact ih
      · intro _; rfl
    | stop =>
      unfold PooledEngine.Stop
      split
      · exact ih
      · intro hl; simp at hl
    | update patterns compileResult =>
      exact update_loaded_imp_started _ patterns compileResult ih

/-! ## Claim C1 -/

/-- Claim C1, counterexample.  With compiled patterns P = [(0, a), (1, b)]
and the matched-id set M = distinct(M) = {1} — every id a valid index into P
— the claim requires the aggregation to return the one-element list [b].
The aggregation of Simple.Match (part_000 lines 201-208) allocates the
output with length |distinct(M)| = 1 and then writes at index 1, out of
range: no list is returned at all (a runtime panic in Go, none here).  The
inline aggregation of ConsecutiveEngine.Match (consecutiveengine.go lines
87-96) fails the same way.  The aggregation of PooledEngine.Match
(hypermatcher.go lines 83-97) returns the required [b]. -/
theorem aggregation_by_id_counterexample_c1 :
    matchedIdxToPatterns [1] [⟨0, "a"⟩, ⟨1, "b"⟩] = none ∧
    consecutiveAggregate [1, 1] [⟨0, "a"⟩, ⟨1, "b"⟩] = none ∧
    matchedIdxToStrings [1] [⟨0, "a"⟩, ⟨1, "b"⟩] = some ["b"] :=
  ⟨rfl, rfl, rfl⟩

/-- Claim C1, amended to the aggregation PooledEngine.Match actually calls
(matchedIdxToStrings, hypermatcher.go lines 83-97): when every matched id is
a valid index into the compiled pattern list, the aggregation returns a list
of length |distinct(M)| holding exactly the source expression of each
distinct matched id, exactly once, with no slot unwritten.  The older
write-at-raw-id aggregations (matchedIdxToPatterns, ConsecutiveEngine.Match)
do not satisfy this: see the counterexample. -/
theorem matchedIdxToStrings_spec_c1 (matched : List Nat) (patterns : List HsPattern)
    (h : ∀ i ∈ matched, i < patterns.length) :
    ∃ out, matchedIdxToStrings matched patterns = some out ∧
      out.length = (matchedSieve matched).length ∧
      out = (matchedSieve matched).map (fun i => (patterns.getD i ⟨0, ""⟩).expression) ∧
      (matchedSieve matched).Nodup ∧
      (∀ i, i ∈ matchedSieve matched ↔ i ∈ matched) := by
  have hm : ∀ i ∈ matchedSieve matched, i < patterns.length := by
    intro i hi
    exact h i (List.mem_dedup.1 hi)
  refine ⟨_, sieveToStrings_eq_map patterns _ hm, ?_, rfl,
    List.nodup_dedup _, fun i => List.mem_dedup⟩
  simp

/-- Claim C1, witness: matched multiset [1, 0, 1] over two patterns
aggregates to the two expressions, the duplicate removed. -/
theorem matchedIdxToStrings_spec_c1_witness :
    matchedIdxToStrings [1, 0, 1] [⟨0, "a"⟩, ⟨1, "b"⟩] = some ["a", "b"] := by
  obtain ⟨out, h1, -, h3, -, -⟩ :=
    matchedIdxToStrings_spec_c1 [1, 0, 1] [⟨0, "a"⟩, ⟨1, "b"⟩] (by decide)
  rw [h1, h3]
  rfl

/-! ## Claim C3 -/

/-- Claim C3: on a Running, Loaded pool, when no worker is ready to receive
at the instant of the non-blocking select, Match fails immediately with Busy
and dispatches nothing; when a worker accepts, the call returns that
worker's response — its error verbatim, or the aggregation of its matched
ids. -/
theorem match_busy_nonblocking_c3 (pe : PooledEngine)
    (h1 : pe.loaded = true) (h2 : pe.started = true) :
    (∀ response, pe.Match false response = some ⟨none, some HsError.busy, false⟩) ∧
    (∀ response e, response.err = some e →
      pe.Match true response = some ⟨none, some e, true⟩) ∧
    (∀ response out, response.err = none →
      matchedIdxToStrings response.matched pe.patterns = some out →
      pe.Match true response = some ⟨some out, none, true⟩) := by
  refine ⟨fun response => ?_, fun response e he => ?_, fun response out he hagg => ?_⟩
  · simp [PooledEngine.Match, h1, h2]
  · simp [PooledEngine.Match, h1, h2, he]
  · simp [PooledEngine.Match, h1, h2, he, hagg]

/-- Claim C3, witness: a running, loaded one-worker pool with no worker at
the request channel answers Busy. -/
theorem match_busy_nonblocking_c3_witness :
    pooledDemo.Match false ⟨[], none⟩ = some ⟨none, some HsError.busy, false⟩ :=
  (match_busy_nonblocking_c3 pooledDemo rfl rfl).1 ⟨[], none⟩

/-! ## Claim C4 -/

/-- Claim C4: when compilation (or the database build folded into it) fails,
Update returns that error with the engine state untouched — db, patterns and
loaded exactly as before, zero refreshes sent — and any subsequent Match
behaves exactly as before the call. -/
theorem update_error_no_mutation_c4 (pe : PooledEngine) (patterns : List String)
    (e : HsError) (h1 : patterns ≠ []) (h2 : pe.started = true) :
    pe.Update patterns (Except.error e) = (pe, UpdateResult.failed e, 0) ∧
    (∀ ready response, ((pe.Update patterns (Except.error e)).1).Match ready response
        = pe.Match ready response) := by
  have hl : ¬ patterns.length = 0 := by simpa using h1
  constructor
  · simp [PooledEngine.Update, hl, h2]
  · intro ready response
    simp [PooledEngine.Update, hl, h2]

/-- Claim C4, witness: a failed compile on a running loaded pool leaves it
untouched. -/
theorem update_error_no_mutation_c4_witness :
    pooledDemo.Update ["("] (Except.error (HsError.parseFailure "("))
      = (pooledDemo, UpdateResult.failed (HsError.parseFailure "("), 0) :=
  (update_error_no_mutation_c4 pooledDemo ["("] (HsError.parseFailure "(")
    (by decide) rfl).1

/-! ## Claim C5 -/

/-- Claim C5, counterexample.  On a pool that was never started (and on
which no Update ever succeeded), the claim requires Match to fail with
NotRunning; the code checks the loaded flag first (pooledengine.go lines
92-97), so Match fails with ErrDBNotLoaded instead. -/
theorem match_unloaded_counterexample_c5 :
    (NewPooledEngine 4).Match true ⟨[], none⟩
      = some ⟨none, some HsError.dbNotLoaded, false⟩ ∧
    HsError.dbNotLoaded ≠ HsError.notStarted :=
  ⟨rfl, by decide⟩

/-- Claim C5, amended: on every reachable pool state with no database loaded
— in particular on every pool on which no Update has ever succeeded, whether
started or not — Match fails with ErrDBNotLoaded, the check happening at the
start of the call, with no state mutated and no request dispatched.  The
unloaded check precedes the running check, and a loaded-but-not-started
state is unreachable, so ErrNotStarted is never returned by Match. -/
theorem match_precondition_unloaded_c5 (n : Nat) (pe : PooledEngine)
    (hr : PoolReachable n pe) (h : pe.loaded = false ∨ pe.started = false) :
    ∀ ready response, pe.Match ready response
      = some ⟨none, some HsError.dbNotLoaded, false⟩ := by
  have hnl : pe.loaded = false := by
    rcases h with h | h
    · exact h
    · cases hl : pe.loaded with
      | false => rfl
      | true =>
        rw [poolReachable_loaded_imp_started n pe hr hl] at h
        cases h
  intro ready response
  simp [PooledEngine.Match, hnl]

/-- Claim C5, witness: a freshly constructed, never-started pool. -/
theorem match_precondition_unloaded_c5_witness :
    (NewPooledEngine 2).Match false ⟨[3], none⟩
      = some ⟨none, some HsError.dbNotLoaded, false⟩ :=
  match_precondition_unloaded_c5 2 (NewPooledEngine 2) Relation.ReflTransGen.refl
    (Or.inl rfl) false ⟨[3], none⟩

/-! ## Claim C6 -/

/-- Claim C6: Update with an empty pattern list fails with ErrNoPatterns in
every engine state — started or not, loaded or not — mutating nothing and
refreshing no worker; the empty-input check is the first statement of Update
(pooledengine.go lines 49-51), so it takes precedence over the Running-state
check and a never-started pool still gets ErrNoPatterns. -/
theorem update_empty_nopatterns_c6 (pe : PooledEngine)
    (compileResult : Except HsError (List HsPattern)) :
    pe.Update [] compileResult = (pe, UpdateResult.failed HsError.noPatterns, 0) := by
  simp [PooledEngine.Update]

/-! ## Claim C7 -/

/-- Claim C7, counterexample.  The claim requires a pool restarted after
Stop to serve Update and Match as a freshly started pool does.  Stop closes
the pool's only stop channel and Start reuses it (pooledengine.go lines
143-144, 160-161), so workers spawned by the second Start observe the
already-closed channel at their first select and exit at once: the very same
Update that succeeds on a freshly started one-worker pool never returns on
the restarted pool — its first rendezvous refresh send has no receiver. -/
theorem restart_not_fresh_counterexample_c7 :
    ((((NewPooledEngine 1).Start.1).Update ["a"] (Except.ok [⟨0, "a"⟩])).2.1
        = UpdateResult.ok) ∧
    ((((((NewPooledEngine 1).Start.1).Stop.1).Start.1).Update ["a"]
        (Except.ok [⟨0, "a"⟩])).2.1 = UpdateResult.blocked) ∧
    UpdateResult.ok ≠ UpdateResult.blocked :=
  ⟨rfl, rfl, by decide⟩

/-- Claim C7, amended: the lifecycle error transitions hold as claimed —
Start on a Running pool fails with ErrStarted changing nothing, Stop on a
NotRunning pool fails with ErrNotStarted changing nothing, and Start after a
prior Stop succeeds and marks the pool Running.  But the restarted pool does
not serve Update as a freshly started pool: its workers observe the stop
channel already closed by Stop and exit immediately, so Update on it blocks
forever in the refresh broadcast instead of succeeding. -/
theorem lifecycle_state_machine_c7 :
    (∀ pe : PooledEngine, pe.started = true → pe.Start = (pe, some HsError.started)) ∧
    (∀ pe : PooledEngine, pe.started = false → pe.Stop = (pe, some HsError.notStarted)) ∧
    (∀ pe : PooledEngine, pe.started = false →
      pe.Start.2 = none ∧ pe.Start.1.started = true) ∧
    (∀ (n : Nat) (patterns : List String) (compiled : List HsPattern),
      n ≠ 0 → patterns ≠ [] →
      ((((NewPooledEngine n).Start.1).Update patterns (Except.ok compiled)).2.1
          = UpdateResult.ok) ∧
      ((((((NewPooledEngine n).Start.1).Stop.1).Start.1).Update patterns
          (Except.ok compiled)).2.1 = UpdateResult.blocked)) := by
  refine ⟨fun pe hs => ?_, fun pe hs => ?_, fun pe hs => ?_, fun n patterns compiled hn hp => ?_⟩
  · simp [PooledEngine.Start, hs]
  · simp [PooledEngine.Stop, hs]
  · simp [PooledEngine.Start, hs]
  · have hl : ¬ patterns.length = 0 := by simpa using hp
    constructor
    · simp [NewPooledEngine, PooledEngine.Start, PooledEngine.Stop, PooledEngine.Update, hl, hn]
    · simp [NewPooledEngine, PooledEngine.Start, PooledEngine.Stop, PooledEngine.Update, hl, hn]

/-- Claim C7, witness: the error transitions and fresh-pool Update at a
concrete running pool and a concrete one-worker pool. -/
theorem lifecycle_state_machine_c7_witness :
    pooledDemo.Start = (pooledDemo, some HsError.started) ∧
    ((((NewPooledEngine 1).Start.1).Update ["a"] (Except.ok [⟨0, "a"⟩])).2.1
        = UpdateResult.ok) :=
  ⟨lifecycle_state_machine_c7.1 pooledDemo rfl,
    (lifecycle_state_machine_c7.2.2.2 1 ["a"] [⟨0, "a"⟩] (by decide) (by decide)).1⟩

/-! ## Claim C8 -/

/-- Claim C8: a worker starts with the sticky error preset to
ErrWorkerUninitialized; a scan arriving while the sticky error is set is
answered with that error and the state (in particular the workspace) is
untouched; every refresh sets the sticky error to the outcome of
(re)allocating the workspace for the new database; scans never change the
sticky error, so after a failed refresh every scan keeps failing with that
error; and the only signal that clears a set sticky error is a refresh whose
allocation succeeds. -/
theorem worker_sticky_error_c8 :
    NewPoolWorker.err = some HsError.workerUninitialized ∧
    (∀ (pw : PoolWorker) (e : HsError) (o : Except HsError (List Nat)),
      pw.err = some e → pw.onScan o = (pw, ⟨[], some e⟩)) ∧
    (∀ (pw : PoolWorker) (d : Nat) (a : Except HsError Nat),
      (pw.onUpdateDB d a).err
        = match a with | Except.ok _ => none | Except.error e => some e) ∧
    (∀ (pw : PoolWorker) (events : List WorkerEvent),
      (∀ ev ∈ events, ev.isScan = true) → (pw.run events).err = pw.err) ∧
    (∀ (pw : PoolWorker) (ev : WorkerEvent) (e : HsError),
      pw.err = some e → (pw.step ev).err = none →
      ∃ d sc, ev = WorkerEvent.refresh d (Except.ok sc)) := by
  refine ⟨rfl, fun pw e o he => ?_, fun pw d a => ?_, fun pw events hev => ?_,
    fun pw ev e he hcl => ?_⟩
  · unfold PoolWorker.onScan
    rw [he]
  · unfold PoolWorker.onUpdateDB
    cases pw.scratch <;> cases a <;> rfl
  · induction events generalizing pw with
    | nil => rfl
    | cons ev evs ih =>
      have hscan : ev.isScan = true := hev ev (List.mem_cons_self ev evs)
      cases ev with
      | refresh d a => simp [WorkerEvent.isScan] at hscan
      | scan o =>
        have h2 : ∀ x ∈ evs, x.isScan = true :=
          fun x hx => hev x (List.mem_cons_of_mem _ hx)
        calc (pw.run (WorkerEvent.scan o :: evs)).err
            = ((pw.step (WorkerEvent.scan o)).run evs).err := rfl
          _ = (pw.run evs).err := by rw [poolWorker_step_scan]
          _ = pw.err := ih pw h2
  · cases ev with
    | scan o =>
      rw [poolWorker_step_scan, he] at hcl
      cases hcl
    | refresh d a =>
      cases a with
      | ok sc => exact ⟨d, sc, rfl⟩
      | error e2 =>
        unfold PoolWorker.step PoolWorker.onUpdateDB at hcl
        cases hsc : pw.scratch <;> rw [hsc] at hcl <;> cases hcl

/-- Claim C8, witness: the fresh worker answers a scan with the
uninitialized error; a refresh with a failed allocation leaves the sticky
error set; a refresh with a successful allocation clears it. -/
theorem worker_sticky_error_c8_witness :
    NewPoolWorker.onScan (Except.ok [0])
      = (NewPoolWorker, ⟨[], some HsError.workerUninitialized⟩) ∧
    (NewPoolWorker.onUpdateDB 1 (Except.error HsError.scratchFailure)).err
      = some HsError.scratchFailure ∧
    (NewPoolWorker.onUpdateDB 1 (Except.ok 7)).err = none :=
  ⟨worker_sticky_error_c8.2.1 NewPoolWorker HsError.workerUninitialized
      (Except.ok [0]) rfl,
    worker_sticky_error_c8.2.2.1 NewPoolWorker 1 (Except.error HsError.scratchFailure),
    worker_sticky_error_c8.2.2.1 NewPoolWorker 1 (Except.ok 7)⟩

/-! ## Claim C10 -/

/-- Claim C10: Match (and MatchStrings, which delegates to it unchanged)
never returns both a result and an error: every error path — not loaded,
not started, busy, worker error — returns a nil result slice with the error,
and every successful call returns a non-nil slice with no error, the slice
being the empty (but allocated, non-nil) one when nothing matched.  Valid
matched ids are assumed, as produced by a scan over the database compiled
from this very pattern list. -/
theorem match_result_error_exclusive_c10 (pe : PooledEngine) (ready : Bool)
    (response : ScanResponse)
    (hv : ∀ i ∈ response.matched, i < pe.patterns.length) :
    ∃ r, pe.Match ready response = some r ∧
      (((∃ l, r.result = some l) ∧ r.err = none) ∨
        (r.result = none ∧ ∃ e, r.err = some e)) := by
  cases hl : pe.loaded with
  | false =>
    exact ⟨⟨none, some HsError.dbNotLoaded, false⟩,
      by simp [PooledEngine.Match, hl], Or.inr ⟨rfl, _, rfl⟩⟩
  | true =>
    cases hs : pe.started with
    | false =>
      exact ⟨⟨none, some HsError.notStarted, false⟩,
        by simp [PooledEngine.Match, hl, hs], Or.inr ⟨rfl, _, rfl⟩⟩
    | true =>
      cases ready with
      | false =>
        exact ⟨⟨none, some HsError.busy, false⟩,
          by simp [PooledEngine.Match, hl, hs], Or.inr ⟨rfl, _, rfl⟩⟩
      | true =>
        cases he : response.err with
        | some e =>
          exact ⟨⟨none, some e, true⟩,
            by simp [PooledEngine.Match, hl, hs, he], Or.inr ⟨rfl, _, rfl⟩⟩
        | none =>
          have hm : ∀ i ∈ matchedSieve response.matched, i < pe.patterns.length :=
            fun i hi => hv i (List.mem_dedup.1 hi)
          refine ⟨⟨some ((matchedSieve response.matched).map
              (fun i => (pe.patterns.getD i ⟨0, ""⟩).expression)), none, true⟩, ?_,
            Or.inl ⟨⟨_, rfl⟩, rfl⟩⟩
          simp [PooledEngine.Match, hl, hs, he, matchedIdxToStrings,
            sieveToStrings_eq_map pe.patterns (matchedSieve response.matched) hm]

/-- Claim C10, witness: a successful scan with no matches yields the
allocated empty slice and no error. -/
theorem match_result_error_exclusive_c10_witness :
    (pooledDemo.Match true ⟨[], none⟩).isSome = true := by
  obtain ⟨r, h1, -⟩ :=
    match_result_error_exclusive_c10 pooledDemo true ⟨[], none⟩ (by simp)
  rw [h1]
  rfl

/-! ## Claim C2: the hot-swap broadcast invariant -/

namespace Broadcast

/-- Reading an index just written by set yields the written value. -/
theorem get_set_same {α : Type} (l : List α) (i : Nat) (a : α) (h : i < l.length)
    (h2 : i < (l.set i a).length) : (l.set i a).get ⟨i, h2⟩ = a := by
  simp [List.get_eq_getElem]

/-- Reading another index than the one written by set yields the old value. -/
theorem get_set_other {α : Type} (l : List α) (i j : Nat) (a : α) (hj : j < l.length)
    (h2 : j < (l.set i a).length) (hne : i ≠ j) :
    (l.set i a).get ⟨j, h2⟩ = l.get ⟨j, hj⟩ := by
  simp [List.get_eq_getElem, List.getElem_set_ne hne]

/-- The broadcast invariant holds in the initial state: no database was ever
installed and no broadcast is pending. -/
theorem inv_init (n : Nat) : Inv (init n) := by
  constructor
  · intro v i hpend
    cases hpend
  · intro _ v hcur
    cases hcur

/-- Every protocol step preserves the broadcast invariant. -/
theorem inv_step (s t : PoolView) (hst : Step s t) (hinv : Inv s) : Inv t := by
  obtain ⟨inv1, inv2⟩ := hinv
  cases hst with
  | updateStart v hp =>
    constructor
    · intro v2 i2 hpend
      obtain ⟨hv, hi⟩ : v = v2 ∧ 0 = i2 := by simpa using hpend
      subst hv
      subst hi
      exact ⟨rfl, Nat.zero_le _, fun j hj hji => absurd hji (Nat.not_lt_zero j)⟩
    · intro hpn
      cases hpn
  | handoff v i h hp hscan =>
    obtain ⟨hcur, hle, hworkers⟩ := inv1 v i hp
    constructor
    · intro v2 i2 hpend
      obtain ⟨hv, hi⟩ : v = v2 ∧ i + 1 = i2 := by simpa using hpend
      subst hv
      subst hi
      refine ⟨hcur, by simpa using h, ?_⟩
      intro j hj hji
      have hjlen : j < s.workers.length := by simpa using hj
      by_cases hij : i = j
      · subst hij
        rw [get_set_same s.workers i ⟨some v, none⟩ h hj]
        exact ⟨rfl, Or.inl rfl⟩
      · rw [get_set_other s.workers i j ⟨some v, none⟩ hjlen hj hij]
        exact hworkers j hjlen (by omega)
    · intro hpn
      cases hpn
  | updateReturn v hp =>
    obtain ⟨hcur, hle, hworkers⟩ := inv1 v s.workers.length hp
    constructor
    · intro v2 i2 hpend
      cases hpend
    · intro _ v2 hcur2
      obtain rfl : v = v2 := by
        rw [hcur] at hcur2
        exact Option.some.inj hcur2
      intro j hj
      exact hworkers j hj hj
  | accept i u h hscan hdbv =>
    constructor
    · intro v2 i2 hpend
      obtain ⟨hcur, hle, hworkers⟩ := inv1 v2 i2 hpend
      refine ⟨hcur, by simpa using hle, ?_⟩
      intro j hj hji
      have hjlen : j < s.workers.length := by simpa using hj
      by_cases hij : i = j
      · subst hij
        have hold := hworkers i hjlen hji
        obtain rfl : u = v2 := by
          rw [hdbv] at hold
          exact Option.some.inj hold.1
        rw [get_set_same s.workers i ⟨some u, some u⟩ h hj]
        exact ⟨rfl, Or.inr rfl⟩
      · rw [get_set_other s.workers i j ⟨some u, some u⟩ hjlen hj hij]
        exact hworkers j hjlen hji
    · intro hpn v2 hcur2 j hj
      have hjlen : j < s.workers.length := by simpa using hj
      by_cases hij : i = j
      · subst hij
        have hold := inv2 hpn v2 hcur2 i hjlen
        obtain rfl : u = v2 := by
          rw [hdbv] at hold
          exact Option.some.inj hold.1
        rw [get_set_same s.workers i ⟨some u, some u⟩ h hj]
        exact ⟨rfl, Or.inr rfl⟩
      · rw [get_set_other s.workers i j ⟨some u, some u⟩ hjlen hj hij]
        exact inv2 hpn v2 hcur2 j hjlen
  | finish i h =>
    constructor
    · intro v2 i2 hpend
      obtain ⟨hcur, hle, hworkers⟩ := inv1 v2 i2 hpend
      refine ⟨hcur, by simpa using hle, ?_⟩
      intro j hj hji
      have hjlen : j < s.workers.length := by simpa using hj
      by_cases hij : i = j
      · subst hij
        have hold := hworkers i hjlen hji
        rw [get_set_same s.workers i ⟨(s.workers.get ⟨i, h⟩).dbv, none⟩ h hj]
        exact ⟨hold.1, Or.inl rfl⟩
      · rw [get_set_other s.workers i j ⟨(s.workers.get ⟨i, h⟩).dbv, none⟩ hjlen hj hij]
        exact hworkers j hjlen hji
    · intro hpn v2 hcur2 j hj
      have hjlen : j < s.workers.length := by simpa using hj
      by_cases hij : i = j
      · subst hij
        have hold := inv2 hpn v2 hcur2 i hjlen
        rw [get_set_same s.workers i ⟨(s.workers.get ⟨i, h⟩).dbv, none⟩ h hj]
        exact ⟨hold.1, Or.inl rfl⟩
      · rw [get_set_other s.workers i j ⟨(s.workers.get ⟨i, h⟩).dbv, none⟩ hjlen hj hij]
        exact inv2 hpn v2 hcur2 j hjlen

/-- The broadcast invariant holds in every reachable protocol state. -/
theorem inv_reachable (n : Nat) (s : PoolView) (hr : Reachable n s) : Inv s := by
  induction hr with
  | refl => exact inv_init n
  | tail _ hstep ih => exact inv_step _ _ hstep ih

end Broadcast

/-- Claim C2: in every reachable protocol state in which no broadcast is in
progress (every Update call has returned) and version v is the installed
database, every worker is bound to v and any scan it is running uses v — no
worker can serve a Match against a previous, superseded or half-updated
database once the Update that installed v has returned.  Update calls are
serialized, as the specification requires of concurrent Updates. -/
theorem update_broadcast_sync_c2 (n : Nat) (s : Broadcast.PoolView) (v : Nat)
    (hr : Broadcast.Reachable n s) (hp : s.pending = none)
    (hc : s.current = some v) :
    ∀ j (hj : j < s.workers.length),
      (s.workers.get ⟨j, hj⟩).dbv = some v ∧
      ((s.workers.get ⟨j, hj⟩).scanning = none ∨
        (s.workers.get ⟨j, hj⟩).scanning = some v) :=
  fun j hj => (Broadcast.inv_reachable n s hr).2 hp v hc j hj

/-- Claim C2, witness: a one-worker pool runs a full Update of version 7 —
install, rendezvous handoff, return — after which the worker is bound to
version 7 and idle. -/
theorem update_broadcast_sync_c2_witness :
    ((⟨some 7, none, [⟨some 7, none⟩]⟩ : Broadcast.PoolView).workers.get
        ⟨0, Nat.zero_lt_one⟩).dbv = some 7 := by
  have h1 : Broadcast.Step (Broadcast.init 1)
      ⟨some 7, some (7, 0), [⟨none, none⟩]⟩ :=
    Broadcast.Step.updateStart (Broadcast.init 1) 7 rfl
  have h2 : Broadcast.Step (⟨some 7, some (7, 0), [⟨none, none⟩]⟩ : Broadcast.PoolView)
      ⟨some 7, some (7, 1), [⟨some 7, none⟩]⟩ :=
    Broadcast.Step.handoff _ 7 0 Nat.zero_lt_one rfl rfl
  have h3 : Broadcast.Step (⟨some 7, some (7, 1), [⟨some 7, none⟩]⟩ : Broadcast.PoolView)
      ⟨some 7, none, [⟨some 7, none⟩]⟩ :=
    Broadcast.Step.updateReturn _ 7 rfl
  have hr : Broadcast.Reachable 1 ⟨some 7, none, [⟨some 7, none⟩]⟩ :=
    Relation.ReflTransGen.head h1 (Relation.ReflTransGen.head h2
      (Relation.ReflTransGen.single h3))
  exact (update_broadcast_sync_c2 1 _ 7 hr rfl rfl 0 Nat.zero_lt_one).1


/-! ## Claim C9: compilation ids and the index partition -/

/-- Index membership in the list of indices a range covers. -/
theorem mem_rangeIdxs (m : Nat) (r : Nat × Nat) :
    m ∈ rangeIdxs r ↔ r.1 ≤ m ∧ m < r.1 + (r.2 - r.1) := by
  unfold rangeIdxs
  rw [List.mem_range']
  constructor
  · rintro ⟨i, hi, rfl⟩
    omega
  · intro h
    exact ⟨m - r.1, by omega, by omega⟩

/-- Processing a range never changes the lengths of the two arrays. -/
theorem processRange_lengths (parse : String → Except HsError String)
    (patterns : List String) (st : CompileState) (lo : Nat) : ∀ fuel : Nat,
    (processRange parse patterns st lo fuel).compiled.length = st.compiled.length ∧
    (processRange parse patterns st lo fuel).compileErrors.length
      = st.compileErrors.length := by
  intro fuel
  induction fuel generalizing st lo with
  | zero => exact ⟨rfl, rfl⟩
  | succ fuel ih =>
    simp only [processRange]
    cases hp : parse (patterns.getD lo "") with
    | ok b =>
      obtain ⟨h1, h2⟩ := ih { st with compiled := st.compiled.set lo (some ⟨lo, b⟩) } (lo + 1)
      exact ⟨by simpa using h1, h2⟩
    | error e => exact ⟨rfl, by simp⟩

/-- When every parse in the range succeeds, processing it leaves the error
array untouched and fills exactly the range's slots of the compiled array
with the pattern of each index, carrying that index as id. -/
theorem processRange_ok (parse : String → Except HsError String)
    (patterns : List String) (st : CompileState) (lo fuel : Nat)
    (hbound : lo + fuel ≤ st.compiled.length)
    (hall : ∀ j, lo ≤ j → j < lo + fuel →
      ∃ b, parse (patterns.getD j "") = Except.ok b) :
    (processRange parse patterns st lo fuel).compileErrors = st.compileErrors ∧
    ∀ i, (processRange parse patterns st lo fuel).compiled[i]? =
      if lo ≤ i ∧ i < lo + fuel then some (some ⟨i, bodyOf parse patterns i⟩)
      else st.compiled[i]? := by
  induction fuel generalizing st lo with
  | zero =>
    refine ⟨rfl, fun i => ?_⟩
    rw [if_neg (by omega)]
    rfl
  | succ fuel ih =>
    obtain ⟨b, hb⟩ := hall lo (Nat.le_refl lo) (by omega)
    simp only [processRange, hb]
    obtain ⟨he, hc⟩ := ih { st with compiled := st.compiled.set lo (some ⟨lo, b⟩) }
      (lo + 1) (by simp only [List.length_set]; omega)
      (fun j hj1 hj2 => hall j (by omega) (by omega))
    refine ⟨he, fun i => ?_⟩
    rw [hc i]
    by_cases h1 : lo + 1 ≤ i ∧ i < lo + 1 + fuel
    · rw [if_pos h1, if_pos (by omega)]
    · rw [if_neg h1]
      by_cases h2 : i = lo
      · subst h2
        rw [if_pos (by omega)]
        show (st.compiled.set i (some ⟨i, b⟩))[i]? = _
        rw [List.getElem?_set_self (by omega)]
        simp only [bodyOf, hb]
      · rw [if_neg (by omega)]
        show (st.compiled.set lo (some ⟨lo, b⟩))[i]? = st.compiled[i]?
        exact List.getElem?_set_ne (by omega)

/-- Processing a range never clears a recorded error: a slot of the error
array holding an error still holds one afterwards. -/
theorem processRange_errors_mono (parse : String → Except HsError String)
    (patterns : List String) (st : CompileState) (lo fuel i : Nat) (e : HsError)
    (h : st.compileErrors[i]? = some (some e)) :
    ∃ e2, (processRange parse patterns st lo fuel).compileErrors[i]?
      = some (some e2) := by
  induction fuel generalizing st lo e with
  | zero => exact ⟨e, h⟩
  | succ fuel ih =>
    simp only [processRange]
    cases hp : parse (patterns.getD lo "") with
    | ok b => exact ih { st with compiled := st.compiled.set lo (some ⟨lo, b⟩) } (lo + 1) e h
    | error e3 =>
      by_cases hli : lo = i
      · subst hli
        refine ⟨e3, ?_⟩
        show (st.compileErrors.set lo (some e3))[lo]? = some (some e3)
        rw [List.getElem?_set_self']
        rw [h]
        rfl
      · refine ⟨e, ?_⟩
        show (st.compileErrors.set lo (some e3))[i]? = some (some e)
        rw [List.getElem?_set_ne hli]
        exact h

/-- If some parse in the range fails, processing it records an error in some
slot of the error array. -/
theorem processRange_fail (parse : String → Except HsError String)
    (patterns : List String) (st : CompileState) (lo fuel : Nat)
    (hbound : lo + fuel ≤ st.compileErrors.length)
    (hfail : ¬ ∀ j, lo ≤ j → j < lo + fuel →
      ∃ b, parse (patterns.getD j "") = Except.ok b) :
    ∃ (i : Nat) (e : HsError),
      (processRange parse patterns st lo fuel).compileErrors[i]?
      = some (some e) := by
  induction fuel generalizing st lo with
  | zero => exact absurd (fun j hj1 hj2 => absurd hj2 (by omega)) hfail
  | succ fuel ih =>
    simp only [processRange]
    cases hp : parse (patterns.getD lo "") with
    | error e =>
      refine ⟨lo, e, ?_⟩
      show (st.compileErrors.set lo (some e))[lo]? = some (some e)
      exact List.getElem?_set_self (by omega)
    | ok b =>
      apply ih { st with compiled := st.compiled.set lo (some ⟨lo, b⟩) } (lo + 1)
      · show lo + 1 + fuel ≤ st.compileErrors.length
        omega
      · intro hall
        apply hfail
        intro j hj1 hj2
        by_cases hj : j = lo
        · subst hj
          exact ⟨b, hp⟩
        · exact hall j (by omega) (by omega)

/-- Folding the partition step over any range list preserves the lengths of
both arrays. -/
theorem fold_lengths (parse : String → Except HsError String)
    (patterns : List String) (rs : List (Nat × Nat)) (st : CompileState) :
    ((rs.foldl (compileFoldStep parse patterns) st).compiled.length
      = st.compiled.length) ∧
    ((rs.foldl (compileFoldStep parse patterns) st).compileErrors.length
      = st.compileErrors.length) := by
  induction rs generalizing st with
  | nil => exact ⟨rfl, rfl⟩
  | cons r rs ih =>
    simp only [List.foldl_cons]
    obtain ⟨h1, h2⟩ := ih (compileFoldStep parse patterns st r)
    obtain ⟨g1, g2⟩ := processRange_lengths parse patterns st r.1 (r.2 - r.1)
    exact ⟨h1.trans g1, h2.trans g2⟩

/-- Folding the partition step never clears a recorded error. -/
theorem fold_errors_mono (parse : String → Except HsError String)
    (patterns : List String) (rs : List (Nat × Nat)) (st : CompileState)
    (i : Nat) (e : HsError) (h : st.compileErrors[i]? = some (some e)) :
    ∃ e2, (rs.foldl (compileFoldStep parse patterns) st).compileErrors[i]?
      = some (some e2) := by
  induction rs generalizing st e with
  | nil => exact ⟨e, h⟩
  | cons r rs ih =>
    simp only [List.foldl_cons]
    obtain ⟨e2, h2⟩ := processRange_errors_mono parse patterns st r.1 (r.2 - r.1) i e h
    exact ih (compileFoldStep parse patterns st r) e2 h2

/-- When every parse over the covered indices succeeds, the fold leaves the
error array untouched and fills exactly the covered slots of the compiled
array, each with the pattern of its index carrying that index as id. -/
theorem fold_ok (parse : String → Except HsError String) (patterns : List String)
    (rs : List (Nat × Nat)) (st : CompileState)
    (hbound : ∀ r ∈ rs, r.1 + (r.2 - r.1) ≤ st.compiled.length)
    (hall : ∀ j ∈ coveredIdxs rs, ∃ b, parse (patterns.getD j "") = Except.ok b) :
    ((rs.foldl (compileFoldStep parse patterns) st).compileErrors
      = st.compileErrors) ∧
    ∀ i, (rs.foldl (compileFoldStep parse patterns) st).compiled[i]? =
      if i ∈ coveredIdxs rs then some (some ⟨i, bodyOf parse patterns i⟩)
      else st.compiled[i]? := by
  induction rs generalizing st with
  | nil =>
    refine ⟨rfl, fun i => ?_⟩
    rw [if_neg (by simp [coveredIdxs])]
    rfl
  | cons r rs ih =>
    simp only [List.foldl_cons]
    have hcov : coveredIdxs (r :: rs) = rangeIdxs r ++ coveredIdxs rs := by
      simp [coveredIdxs]
    have hallr : ∀ j, r.1 ≤ j → j < r.1 + (r.2 - r.1) →
        ∃ b, parse (patterns.getD j "") = Except.ok b := by
      intro j h1 h2
      refine hall j ?_
      rw [hcov]
      exact List.mem_append_left _ ((mem_rangeIdxs j r).2 ⟨h1, h2⟩)
    obtain ⟨he1x, hc1x⟩ := processRange_ok parse patterns st r.1 (r.2 - r.1)
      (hbound r (List.mem_cons_self r rs)) hallr
    have he1 : (compileFoldStep parse patterns st r).compileErrors
        = st.compileErrors := he1x
    have hc1 : ∀ i, (compileFoldStep parse patterns st r).compiled[i]? =
        if r.1 ≤ i ∧ i < r.1 + (r.2 - r.1)
        then some (some ⟨i, bodyOf parse patterns i⟩)
        else st.compiled[i]? := hc1x
    have hlen1 : (compileFoldStep parse patterns st r).compiled.length
        = st.compiled.length :=
      (processRange_lengths parse patterns st r.1 (r.2 - r.1)).1
    obtain ⟨he2, hc2⟩ := ih (compileFoldStep parse patterns st r)
      (fun r2 hr2 => by rw [hlen1]; exact hbound r2 (List.mem_cons_of_mem r hr2))
      (fun j hj => hall j (by rw [hcov]; exact List.mem_append_right _ hj))
    refine ⟨he2.trans he1, fun i => ?_⟩
    rw [hc2 i]
    by_cases h2 : i ∈ coveredIdxs rs
    · rw [if_pos h2, if_pos (by rw [hcov]; exact List.mem_append_right _ h2)]
    · rw [if_neg h2]
      have hc1i := hc1 i
      by_cases h1 : r.1 ≤ i ∧ i < r.1 + (r.2 - r.1)
      · rw [if_pos h1] at hc1i
        rw [hc1i, if_pos (by rw [hcov]; exact List.mem_append_left _ ((mem_rangeIdxs i r).2 h1))]
      · rw [if_neg h1] at hc1i
        have hni : i ∉ coveredIdxs (r :: rs) := by
          rw [hcov]
          intro hmem
          cases List.mem_append.1 hmem with
          | inl hm => exact h1 ((mem_rangeIdxs i r).1 hm)
          | inr hm => exact h2 hm
        rw [hc1i, if_neg hni]

/-- If some parse over the covered indices fails, the fold records an error
in some slot of the error array. -/
theorem fold_fail (parse : String → Except HsError String) (patterns : List String)
    (rs : List (Nat × Nat)) (st : CompileState)
    (hbound : ∀ r ∈ rs, r.1 + (r.2 - r.1) ≤ st.compileErrors.length)
    (hfail : ¬ ∀ j ∈ coveredIdxs rs, ∃ b, parse (patterns.getD j "") = Except.ok b) :
    ∃ (i : Nat) (e : HsError),
      (rs.foldl (compileFoldStep parse patterns) st).compileErrors[i]?
      = some (some e) := by
  induction rs generalizing st with
  | nil => exact absurd (fun j hj => absurd hj (by simp [coveredIdxs])) hfail
  | cons r rs ih =>
    simp only [List.foldl_cons]
    have hcov : coveredIdxs (r :: rs) = rangeIdxs r ++ coveredIdxs rs := by
      simp [coveredIdxs]
    have herrlen : (compileFoldStep parse patterns st r).compileErrors.length
        = st.compileErrors.length :=
      (processRange_lengths parse patterns st r.1 (r.2 - r.1)).2
    by_cases hr : ∀ j, r.1 ≤ j → j < r.1 + (r.2 - r.1) →
        ∃ b, parse (patterns.getD j "") = Except.ok b
    · apply ih (compileFoldStep parse patterns st r)
      · intro r2 hr2
        rw [herrlen]
        exact hbound r2 (List.mem_cons_of_mem r hr2)
      · intro hall
        apply hfail
        intro j hj
        rw [hcov] at hj
        cases List.mem_append.1 hj with
        | inl hm =>
          obtain ⟨h1, h2⟩ := (mem_rangeIdxs j r).1 hm
          exact hr j h1 h2
        | inr hm => exact hall j hm
    · obtain ⟨i, e, hie⟩ := processRange_fail parse patterns st r.1 (r.2 - r.1)
        (hbound r (List.mem_cons_self r rs)) hr
      obtain ⟨e2, h2⟩ := fold_errors_mono parse patterns rs
        (compileFoldStep parse patterns st r) i e hie
      exact ⟨i, e2, h2⟩

/-- An initial prefix of the naturals concatenates with the next interval. -/
theorem range_zero_append (m n2 : Nat) :
    List.range' 0 m ++ List.range' m n2 = List.range' 0 (m + n2) := by
  have h := List.range'_append_1 0 m n2
  rw [Nat.add_comm m n2]
  rwa [Nat.zero_add] at h

/-- The indices of the base ranges of subSlices concatenate to the initial
segment of length numSlices * numPerSlice. -/
theorem base_join (nps : Nat) : ∀ k : Nat,
    ((((List.range k).map (fun i => (i * nps, (i + 1) * nps))).map rangeIdxs).flatten)
      = List.range' 0 (k * nps) := by
  intro k
  induction k with
  | zero => simp
  | succ k ih =>
    rw [List.range_succ, List.map_append, List.map_append, List.flatten_append, ih]
    have hr : rangeIdxs (k * nps, (k + 1) * nps) = List.range' (k * nps) nps := by
      have hm : (k + 1) * nps = k * nps + nps := by ring
      simp [rangeIdxs, hm]
    simp only [List.map_cons, List.map_nil, List.flatten_cons, List.flatten_nil,
      List.append_nil, hr]
    rw [range_zero_append]
    have hm : (k + 1) * nps = k * nps + nps := by ring
    rw [hm]

/-- subSlices partitions the index range: the covered indices, in order, are
exactly 0, 1, …, sliceLen - 1. -/
theorem subSlices_covered (n k : Nat) :
    coveredIdxs (subSlices n k) = List.range n := by
  have hle : k * (n / k) ≤ n := Nat.mul_div_le n k
  by_cases h : k * (n / k) < n
  · have hs : subSlices n k
        = ((List.range k).map (fun i => (i * (n / k), (i + 1) * (n / k))))
          ++ [(k * (n / k), n)] := by
      simp only [subSlices]
      rw [if_pos h]
    rw [hs]
    unfold coveredIdxs
    rw [List.map_append, List.flatten_append, base_join]
    simp only [List.map_cons, List.map_nil, List.flatten_cons, List.flatten_nil,
      List.append_nil]
    have hr : rangeIdxs (k * (n / k), n) = List.range' (k * (n / k)) (n - k * (n / k)) := rfl
    rw [hr, range_zero_append, Nat.add_sub_cancel' hle]
    exact (List.range_eq_range' n).symm
  · have heq : k * (n / k) = n := Nat.le_antisymm hle (Nat.le_of_not_lt h)
    have hs : subSlices n k
        = ((List.range k).map (fun i => (i * (n / k), (i + 1) * (n / k)))) := by
      simp only [subSlices]
      rw [if_neg h]
    rw [hs]
    unfold coveredIdxs
    rw [base_join, heq]
    exact (List.range_eq_range' n).symm

/-- Every subSlices range lies within the index range of the input. -/
theorem subSlices_bounds (n k : Nat) (r : Nat × Nat) (hr : r ∈ subSlices n k) :
    r.1 + (r.2 - r.1) ≤ n := by
  have hle : k * (n / k) ≤ n := Nat.mul_div_le n k
  have hbase : ∀ i : Nat, i < k →
      i * (n / k) + ((i + 1) * (n / k) - i * (n / k)) ≤ n := by
    intro i hi
    have h1 : (i + 1) * (n / k) ≤ k * (n / k) :=
      Nat.mul_le_mul_right (n / k) hi
    have h2 : i * (n / k) ≤ (i + 1) * (n / k) :=
      Nat.mul_le_mul_right (n / k) (by omega)
    omega
  simp only [subSlices] at hr
  by_cases h : k * (n / k) < n
  · rw [if_pos h] at hr
    rcases List.mem_append.1 hr with hm | hm
    · obtain ⟨i, hi, rfl⟩ := List.mem_map.1 hm
      exact hbase i (List.mem_range.1 hi)
    · have : r = (k * (n / k), n) := by simpa using hm
      subst this
      simpa using Nat.add_sub_cancel' hle |>.le
  · rw [if_neg h] at hr
    obtain ⟨i, hi, rfl⟩ := List.mem_map.1 hr
    exact hbase i (List.mem_range.1 hi)

/-- Claim C9: a successful compilePatterns call on N patterns (with at least
one partition, as runtime.NumCPU always is) returns a compiled list of
length N in which element i is the pattern parsed from input i carrying id i
— ids are exactly 0..N-1 in input order, no gaps, no duplicates — and the
subSlices ranges partition the index range 0..N-1 exactly: concatenated in
order they are precisely the list 0, 1, …, N-1, so each input position is
parsed by exactly one partition. -/
theorem compilePatterns_ids_partition_c9 (parse : String → Except HsError String)
    (patterns : List String) (numSlices : Nat) (out : List (Option HsPattern))
    (hk : 0 < numSlices)
    (hc : compilePatterns parse patterns numSlices = Except.ok out) :
    out.length = patterns.length ∧
    (∀ i, i < patterns.length → ∃ body,
      parse (patterns.getD i "") = Except.ok body ∧
      out[i]? = some (some ⟨i, body⟩)) ∧
    coveredIdxs (subSlices patterns.length numSlices) = List.range patterns.length := by
  have hcov := subSlices_covered patterns.length numSlices
  have hbounds : ∀ r ∈ subSlices patterns.length numSlices,
      r.1 + (r.2 - r.1) ≤ patterns.length :=
    fun r hr => subSlices_bounds patterns.length numSlices r hr
  unfold compilePatterns at hc
  cases hfind : (compileFold parse patterns numSlices).compileErrors.findSome? id with
  | some e =>
    rw [hfind] at hc
    cases hc
  | none =>
    rw [hfind] at hc
    have hout : out = (compileFold parse patterns numSlices).compiled :=
      (Except.ok.inj hc).symm
    have hall : ∀ j ∈ coveredIdxs (subSlices patterns.length numSlices),
        ∃ b, parse (patterns.getD j "") = Except.ok b := by
      by_contra hfail
      obtain ⟨i, e, hie⟩ := fold_fail parse patterns
        (subSlices patterns.length numSlices)
        ⟨List.replicate patterns.length none, List.replicate patterns.length none⟩
        (fun r hr => by simpa using hbounds r hr) hfail
      have hie2 : (compileFold parse patterns numSlices).compileErrors[i]?
          = some (some e) := hie
      rw [List.findSome?_eq_none_iff] at hfind
      have hmem := List.getElem?_mem hie2
      have := hfind (some e) hmem
      simp at this
    obtain ⟨herr, hchar⟩ := fold_ok parse patterns
      (subSlices patterns.length numSlices)
      ⟨List.replicate patterns.length none, List.replicate patterns.length none⟩
      (fun r hr => by simpa using hbounds r hr) hall
    have hlen : (compileFold parse patterns numSlices).compiled.length
        = patterns.length := by
      have h := (fold_lengths parse patterns (subSlices patterns.length numSlices)
        ⟨List.replicate patterns.length none, List.replicate patterns.length none⟩).1
      simpa [compileFold] using h
    refine ⟨by rw [hout]; exact hlen, ?_, hcov⟩
    intro i hi
    have hmem : i ∈ coveredIdxs (subSlices patterns.length numSlices) := by
      rw [hcov]
      exact List.mem_range.2 hi
    obtain ⟨b, hb⟩ := hall i hmem
    refine ⟨b, hb, ?_⟩
    have hchari := hchar i
    rw [if_pos hmem] at hchari
    have hb2 : bodyOf parse patterns i = b := by simp only [bodyOf, hb]
    rw [hout]
    show ((subSlices patterns.length numSlices).foldl (compileFoldStep parse patterns)
      ⟨List.replicate patterns.length none, List.replicate patterns.length none⟩).compiled[i]?
      = some (some ⟨i, b⟩)
    rw [hchari, hb2]

/-- Claim C9, witness: three patterns compiled over two partitions (ranges
(0,1), (1,2) and the tail (2,3)) with an always-succeeding parse. -/
theorem compilePatterns_ids_partition_c9_witness :
    compilePatterns (fun s => Except.ok s) ["a", "b", "c"] 2 = Except.ok compileDemo ∧
    compileDemo.length = 3 ∧
    coveredIdxs (subSlices 3 2) = List.range 3 := by
  have h := compilePatterns_ids_partition_c9 (fun s => Except.ok s) ["a", "b", "c"] 2
    compileDemo (by decide) rfl
  exact ⟨rfl, h.1, h.2.2⟩

end Hypermatcher
